import Mathlib

/-!
Formal model of the JOB-CHOMMIE ingestion-and-deduplication pipeline.

The definitions below are a shallow embedding of the repository's backend:
* `src/backend/serpapi_fetcher.py` — `fetch_and_store_jobs`, the ingestion cycle;
* `src/backend/models.py` — the `jobs` and `scheduled_runs` tables;
* `src/backend/app.py` — the `/api/jobs` listing query (`list_jobs`);
* `src/backend/scheduler.py` — `serpapi_job` (try/finally around the cycle, no
  exception handler, so a cycle error propagates to the scheduler).

Machine-level aspects are made explicit: wall-clock readings are abstract
instants (`Nat` parameters, one per `datetime.utcnow()` evaluation point), the
outcome of the external HTTP request is a parameter (`FetchOutcome`), and the
outcome of the final commit is a parameter (`commitOk`).
-/

namespace JobChommie

/-- One element of the provider's `jobs_results` array: the dicts iterated by
`fetch_and_store_jobs` in `src/backend/serpapi_fetcher.py`.  Every field is read
with `dict.get`, hence optional; `link` stands for `detected_extensions.link`. -/
structure Candidate where
  title : Option String
  company_name : Option String
  location : Option String
  description : Option String
  link : Option String
  published_at : Option String
deriving DecidableEq

/-- A row of the `jobs` table (`class Job` in `src/backend/models.py`).
`created_at` is the `DateTime` column default (`datetime.utcnow`), modelled as
an abstract instant (`Nat`).  The `id` primary key is immaterial to the claims:
record identity is positional in the row list. -/
structure Job where
  title : Option String
  company : Option String
  location : Option String
  description : Option String
  url : Option String
  date_posted : Option String
  created_at : Nat
deriving DecidableEq

/-- A row of the `scheduled_runs` table (`class ScheduledRun` in
`src/backend/models.py`).  `success` is an `Integer` column; the source comment
fixes the encoding `1=True, 0=False`. -/
structure ScheduledRun where
  run_time : Nat
  api_calls_made : Nat
  success : Nat
deriving DecidableEq

/-- The persistent relational store: the committed contents of the `jobs` table
(Job Record Store) and of the `scheduled_runs` table (Run Ledger). -/
structure Store where
  jobs : List Job
  runs : List ScheduledRun
deriving DecidableEq

/-- The deduplication key of a stored listing: the (title, company, location)
triple used by the `filter_by` lookup in `fetch_and_store_jobs`. -/
def jobKey (j : Job) : Option String × Option String × Option String :=
  (j.title, j.company, j.location)

/-- The deduplication key of a provider candidate, as passed to `filter_by`
(`job.get('title')`, `job.get('company_name')`, `job.get('location')`). -/
def candKey (c : Candidate) : Option String × Option String × Option String :=
  (c.title, c.company_name, c.location)

/-- The lookup `db.query(Job).filter_by(title=..., company=..., location=...).first()`,
used only for its truthiness (`if exists: continue`).  SQLAlchemy renders a
`None` value in `filter_by` as an `IS NULL` test, so `Option.beq` equality on
each component is the faithful translation. -/
def lookupExists (visible : List Job) (c : Candidate) : Bool :=
  visible.any fun j =>
    j.title == c.title && j.company == c.company_name && j.location == c.location

/-- The `Job(...)` constructor call in `fetch_and_store_jobs`: each stored field
comes from the corresponding `dict.get` of the candidate (absent fields stay
absent), and `created_at` is filled by the column default at the abstract
instant `t`. -/
def mkJob (c : Candidate) (t : Nat) : Job :=
  { title := c.title
    company := c.company_name
    location := c.location
    description := c.description
    url := c.link
    date_posted := c.published_at
    created_at := t }

/-- Modelled from the spec: the ORM session configuration (`database.py`, which
defines `SessionLocal` and the engine) is not under `src/`.  Per the spec's
unit-of-work description of the cycle, a query issued during the cycle sees the
committed rows plus the session's pending inserts (the ORM's autoflush), while
nothing becomes durable before the final commit. -/
def visibleRows (committed pending : List Job) : List Job :=
  committed ++ pending

/-- The candidate loop of `fetch_and_store_jobs`: for each candidate in provider
order, look the dedup key up among the rows visible to the session; on a match
`continue`, otherwise `db.add` a freshly mapped `Job`.  Returns the session's
pending inserts.  (The source also keeps a `saved` counter, used only for the
final log line.) -/
def fetchLoop (committed : List Job) (tJob : Nat) :
    List Candidate → List Job → List Job
  | [], pending => pending
  | c :: cs, pending =>
    if lookupExists (visibleRows committed pending) c then
      fetchLoop committed tJob cs pending
    else
      fetchLoop committed tJob cs (pending ++ [mkJob c tJob])

/-- Truthiness of `SERPAPI_KEY` in `if not SERPAPI_KEY:`: `os.getenv` yields
`None` when the variable is unset, and both `None` and the empty string are
falsy. -/
def keyConfigured : Option String → Bool
  | none => false
  | some k => !(k == "")

/-- Column constraint from `src/backend/models.py`: `title` is the only
`jobs` column declared `nullable=False`, so a pending row can be flushed only
when its title is present. -/
def rowInsertable (j : Job) : Bool :=
  j.title.isSome

/-- A batch of pending inserts violates no NOT NULL constraint. -/
def commitAllowed (pending : List Job) : Bool :=
  pending.all rowInsertable

/-- Modelled from the spec: `database.py` (`SessionLocal`) is not under `src/`;
per the spec's "single unit of work" contract, a successful `db.commit()`
appends every pending row durably, and a failed one leaves the committed store
untouched. -/
def applyCommit (s : Store) (newJobs : List Job) (run : ScheduledRun) : Store :=
  ⟨s.jobs ++ newJobs, s.runs ++ [run]⟩

/-- Outcome of the external request in `fetch_and_store_jobs`:
`raised` models `requests.get` or `r.json()` raising (timeout, malformed body);
`parsed results` models a parseable JSON body, with `results` the value of
`data.get('jobs_results', [])` (an absent key yields `[]`). -/
inductive FetchOutcome where
  | raised : FetchOutcome
  | parsed : List Candidate → FetchOutcome
deriving DecidableEq

/-- Observable outcome of one invocation of the cycle: the committed store
afterwards, the number of outbound network calls issued, and whether an
exception propagated out of `fetch_and_store_jobs` (to `serpapi_job`, whose
`try/finally` has no handler, hence onward to the scheduler). -/
structure CycleOutcome where
  store : Store
  networkCalls : Nat
  raisedError : Bool
deriving DecidableEq

/-- The ingestion cycle `fetch_and_store_jobs(db)` of
`src/backend/serpapi_fetcher.py`, one invocation.  The `utcnow()` readings that
occur during the cycle are abstract instants passed in program order:
`tStart` is the wall-clock instant at which the scheduler enters the function
(never read by the source code itself), `tJob` the reading taken when the
inserted rows' `created_at` defaults are filled, and `tRun` the reading of the
explicit `datetime.utcnow()` call that stamps the run record after the loop.
`commitOk` is the outcome of the final `db.commit()` absent any constraint
violation; a NOT NULL violation from a pending row likewise makes the commit
raise.  On any raise the unit of work is rolled back: the committed store is
returned unchanged and the error propagates. -/
def fetch_and_store_jobs (serpapiKey : Option String) (resp : FetchOutcome)
    (commitOk : Bool) (_tStart tJob tRun : Nat) (s : Store) : CycleOutcome :=
  if keyConfigured serpapiKey then
    match resp with
    | .raised => ⟨s, 1, true⟩
    | .parsed results =>
      let newJobs := fetchLoop s.jobs tJob results []
      if commitOk && commitAllowed newJobs then
        ⟨applyCommit s newJobs ⟨tRun, 1, 1⟩, 1, false⟩
      else
        ⟨s, 1, true⟩
  else
    ⟨s, 0, false⟩

/-- Lowercasing of a string, character by character: the model of Python's
`str.lower()` and of the case folding performed by `ilike`. -/
def lowerChars (s : String) : List Char :=
  s.data.map Char.toLower

/-- Contiguous-substring test on character lists: `pat` occurs inside `hay`.
This is the `LIKE '%pat%'` containment test for a pattern without wildcard
characters (the source interpolates the user text directly). -/
def isSubstr (pat : List Char) : List Char → Bool
  | [] => pat.isEmpty
  | c :: rest => pat.isPrefixOf (c :: rest) || isSubstr pat rest

/-- The filter `Job.title.ilike(f"%{q}%")` from `list_jobs` in
`src/backend/app.py`: case-insensitive containment of the pattern in the title.
A `NULL` title satisfies no `ilike` test. -/
def titleIlike (j : Job) (pat : List Char) : Bool :=
  match j.title with
  | none => false
  | some t => isSubstr (pat.map Char.toLower) (lowerChars t)

/-- The `/api/jobs` handler `list_jobs` of `src/backend/app.py`, over the
committed `jobs` rows.  `qParam` models the optional `q` request argument
(default `''`), lowered with `.lower()`; a non-empty filter restricts rows by
case-insensitive title containment.  `total` is counted on the filtered query
before ordering and paging; rows are then ordered by `created_at` descending
and paged with `offset = (page - 1) * limit` and `limit`.  Returns the selected
rows (the source then projects each row to its response fields), the total
count, and the echoed page number. -/
def list_jobs (qParam : Option String) (page limit : Nat) (jobs : List Job) :
    List Job × Nat × Nat :=
  let q := lowerChars (qParam.getD "")
  let filtered := if q.isEmpty then jobs else jobs.filter fun j => titleIlike j q
  let total := filtered.length
  let sorted := filtered.insertionSort fun a b => b.created_at ≤ a.created_at
  let offset := (page - 1) * limit
  ((sorted.drop offset).take limit, total, page)

/-! Basic lemmas about the dedup lookup. -/

theorem lookupExists_iff (l : List Job) (c : Candidate) :
    lookupExists l c = true ↔ ∃ j ∈ l, jobKey j = candKey c := by
  simp [lookupExists, List.any_eq_true, jobKey, candKey, Prod.ext_iff, and_assoc]

theorem lookupExists_mono {l : List Job} {c : Candidate} (e : List Job)
    (h : lookupExists l c = true) : lookupExists (l ++ e) c = true := by
  simp only [lookupExists, List.any_append, Bool.or_eq_true]
  exact Or.inl h

theorem lookupExists_of_append_eq_false {l e : List Job} {c : Candidate}
    (h : lookupExists (l ++ e) c = false) : lookupExists l c = false := by
  simp only [lookupExists, List.any_append, Bool.or_eq_false_iff] at h
  exact h.1

theorem jobKey_mkJob (c : Candidate) (t : Nat) : jobKey (mkJob c t) = candKey c := rfl

/-! Step equations for the candidate loop. -/

theorem fetchLoop_cons_pos (committed : List Job) (tJ : Nat) (c : Candidate)
    (cs : List Candidate) (pending : List Job)
    (h : lookupExists (visibleRows committed pending) c = true) :
    fetchLoop committed tJ (c :: cs) pending = fetchLoop committed tJ cs pending := by
  simp [fetchLoop, h]

theorem fetchLoop_cons_neg (committed : List Job) (tJ : Nat) (c : Candidate)
    (cs : List Candidate) (pending : List Job)
    (h : lookupExists (visibleRows committed pending) c = false) :
    fetchLoop committed tJ (c :: cs) pending
      = fetchLoop committed tJ cs (pending ++ [mkJob c tJ]) := by
  simp [fetchLoop, h]

/-- The loop only ever appends to the session's pending inserts. -/
theorem fetchLoop_grows (committed : List Job) (tJ : Nat) (cs : List Candidate) :
    ∀ pending : List Job, ∃ ext, fetchLoop committed tJ cs pending = pending ++ ext := by
  induction cs with
  | nil => exact fun p => ⟨[], by simp [fetchLoop]⟩
  | cons c0 cs ih =>
    intro p
    by_cases h : lookupExists (visibleRows committed p) c0 = true
    · obtain ⟨ext, hext⟩ := ih p
      exact ⟨ext, by rw [fetchLoop_cons_pos _ _ _ _ _ h, hext]⟩
    · obtain ⟨ext, hext⟩ := ih (p ++ [mkJob c0 tJ])
      refine ⟨mkJob c0 tJ :: ext, ?_⟩
      rw [fetchLoop_cons_neg _ _ _ _ _ (Bool.eq_false_iff.mpr h), hext]
      simp

/-- After the loop, every processed candidate's dedup key is present among the
visible rows. -/
theorem fetchLoop_all_found (committed : List Job) (tJ : Nat) (cs : List Candidate) :
    ∀ pending : List Job, ∀ c ∈ cs,
      lookupExists (committed ++ fetchLoop committed tJ cs pending) c = true := by
  induction cs with
  | nil => intro _ c hc; cases hc
  | cons c0 cs ih =>
    intro pending c hc
    by_cases h : lookupExists (visibleRows committed pending) c0 = true
    · rw [fetchLoop_cons_pos _ _ _ _ _ h]
      rcases List.mem_cons.mp hc with rfl | hc
      · obtain ⟨ext, hext⟩ := fetchLoop_grows committed tJ cs pending
        rw [hext, ← List.append_assoc]
        exact lookupExists_mono ext h
      · exact ih pending c hc
    · rw [fetchLoop_cons_neg _ _ _ _ _ (Bool.eq_false_iff.mpr h)]
      rcases List.mem_cons.mp hc with rfl | hc
      · obtain ⟨ext, hext⟩ := fetchLoop_grows committed tJ cs (pending ++ [mkJob c tJ])
        rw [hext]
        refine (lookupExists_iff _ _).mpr ⟨mkJob c tJ, ?_, jobKey_mkJob c tJ⟩
        simp
      · exact ih (pending ++ [mkJob c0 tJ]) c hc

/-- When every candidate's key is already visible, the loop inserts nothing. -/
theorem fetchLoop_no_insert (committed : List Job) (tJ : Nat) (cs : List Candidate) :
    ∀ pending : List Job,
      (∀ c ∈ cs, lookupExists (visibleRows committed pending) c = true) →
      fetchLoop committed tJ cs pending = pending := by
  induction cs with
  | nil => intro p _; simp [fetchLoop]
  | cons c0 cs ih =>
    intro p h
    rw [fetchLoop_cons_pos _ _ _ _ _ (h c0 (List.mem_cons_self c0 cs))]
    exact ih p fun c hc => h c (List.mem_cons_of_mem _ hc)

/-- Every pending row after the loop either was pending before it, or is the
mapping of a processed candidate whose key was absent from the committed rows. -/
theorem fetchLoop_mem_shape (committed : List Job) (tJ : Nat) (cs : List Candidate) :
    ∀ pending j, j ∈ fetchLoop committed tJ cs pending →
      j ∈ pending ∨ ∃ c ∈ cs, j = mkJob c tJ ∧ lookupExists committed c = false := by
  induction cs with
  | nil => intro p j hj; left; simpa [fetchLoop] using hj
  | cons c0 cs ih =>
    intro p j hj
    by_cases h : lookupExists (visibleRows committed p) c0 = true
    · rw [fetchLoop_cons_pos _ _ _ _ _ h] at hj
      rcases ih p j hj with h1 | ⟨c, hc, he, hl⟩
      · exact Or.inl h1
      · exact Or.inr ⟨c, List.mem_cons_of_mem _ hc, he, hl⟩
    · rw [fetchLoop_cons_neg _ _ _ _ _ (Bool.eq_false_iff.mpr h)] at hj
      rcases ih (p ++ [mkJob c0 tJ]) j hj with h1 | ⟨c, hc, he, hl⟩
      · rcases List.mem_append.mp h1 with hp | hs
        · exact Or.inl hp
        · refine Or.inr ⟨c0, List.mem_cons_self c0 cs, List.mem_singleton.mp hs, ?_⟩
          exact lookupExists_of_append_eq_false (Bool.eq_false_iff.mpr h)
      · exact Or.inr ⟨c, List.mem_cons_of_mem _ hc, he, hl⟩

/-- Key agreement between two candidates, as tested by the dedup lookup. -/
def candMatches (q c : Candidate) : Bool :=
  q.title == c.title && q.company_name == c.company_name && q.location == c.location

theorem any_map_mkJob (qs : List Candidate) (t : Nat) (c : Candidate) :
    ((qs.map (mkJob · t)).any fun j =>
        j.title == c.title && j.company == c.company_name && j.location == c.location)
      = qs.any fun q => candMatches q c := by
  induction qs with
  | nil => rfl
  | cons q qs ih =>
    simp only [List.map_cons, List.any_cons]
    rw [ih]
    rfl

theorem lookupExists_map_mkJob (committed : List Job) (qs : List Candidate)
    (t : Nat) (c : Candidate) :
    lookupExists (committed ++ qs.map (mkJob · t)) c
      = (lookupExists committed c || qs.any fun q => candMatches q c) := by
  simp only [lookupExists, List.any_append]
  rw [any_map_mkJob]

/-- The loop's branching never inspects `created_at`: the inserted rows are the
mapping, at the insertion instant, of a candidate subsequence that does not
depend on that instant. -/
theorem fetchLoop_factor (committed : List Job) (cs : List Candidate) :
    ∀ qs : List Candidate, ∃ picked : List Candidate,
      ∀ t, fetchLoop committed t cs (qs.map (mkJob · t)) = (qs ++ picked).map (mkJob · t) := by
  induction cs with
  | nil => exact fun qs => ⟨[], fun t => by simp [fetchLoop]⟩
  | cons c0 cs ih =>
    intro qs
    by_cases h : (lookupExists committed c0 || qs.any fun q => candMatches q c0) = true
    · obtain ⟨picked, hp⟩ := ih qs
      refine ⟨picked, fun t => ?_⟩
      rw [fetchLoop_cons_pos]
      · exact hp t
      · show lookupExists (committed ++ qs.map (mkJob · t)) c0 = true
        rw [lookupExists_map_mkJob]
        exact h
    · obtain ⟨picked, hp⟩ := ih (qs ++ [c0])
      refine ⟨c0 :: picked, fun t => ?_⟩
      rw [fetchLoop_cons_neg]
      · have h1 : qs.map (mkJob · t) ++ [mkJob c0 t] = (qs ++ [c0]).map (mkJob · t) := by simp
        rw [h1, hp t]
        simp
      · show lookupExists (committed ++ qs.map (mkJob · t)) c0 = false
        rw [lookupExists_map_mkJob]
        exact Bool.eq_false_iff.mpr h

/-! Key distinctness. -/

/-- The dedup-key uniqueness invariant of the Job Record Store: no two rows
share an identical (title, company, location) triple. -/
def KeysDistinct (l : List Job) : Prop :=
  l.Pairwise fun a b => jobKey a ≠ jobKey b

theorem fetchLoop_keys_distinct (committed : List Job) (tJ : Nat) (cs : List Candidate) :
    ∀ pending : List Job, KeysDistinct (visibleRows committed pending) →
      KeysDistinct (committed ++ fetchLoop committed tJ cs pending) := by
  induction cs with
  | nil => intro p h; simpa [fetchLoop] using h
  | cons c0 cs ih =>
    intro p h
    by_cases hl : lookupExists (visibleRows committed p) c0 = true
    · rw [fetchLoop_cons_pos _ _ _ _ _ hl]
      exact ih p h
    · rw [fetchLoop_cons_neg _ _ _ _ _ (Bool.eq_false_iff.mpr hl)]
      refine ih (p ++ [mkJob c0 tJ]) ?_
      have hnew : ∀ j ∈ visibleRows committed p, jobKey j ≠ candKey c0 := by
        intro j hj hkey
        exact hl ((lookupExists_iff _ _).mpr ⟨j, hj, hkey⟩)
      show KeysDistinct (committed ++ (p ++ [mkJob c0 tJ]))
      rw [← List.append_assoc]
      unfold KeysDistinct
      rw [List.pairwise_append]
      refine ⟨h, List.pairwise_singleton _ _, ?_⟩
      intro a ha b hb
      rw [List.mem_singleton.mp hb, jobKey_mkJob]
      exact hnew a ha

/-! Counting rows with a fixed dedup key. -/

/-- Number of stored rows carrying the dedup key `k`. -/
def countKey (l : List Job) (k : Option String × Option String × Option String) : Nat :=
  l.countP fun j => decide (jobKey j = k)

theorem countKey_append (l e : List Job) (k : Option String × Option String × Option String) :
    countKey (l ++ e) k = countKey l k + countKey e k :=
  List.countP_append _ _ _

theorem countKey_eq_zero_iff (l : List Job) (k : Option String × Option String × Option String) :
    countKey l k = 0 ↔ ∀ j ∈ l, jobKey j ≠ k := by
  simp [countKey, List.countP_eq_zero]

theorem countKey_pos_iff (l : List Job) (k : Option String × Option String × Option String) :
    0 < countKey l k ↔ ∃ j ∈ l, jobKey j = k := by
  simp [countKey, List.countP_pos_iff]

/-- Once a key is visible, the loop never duplicates it: the count of rows with
that key among the visible rows is unchanged. -/
theorem fetchLoop_countKey_stable (committed : List Job) (tJ : Nat) (cs : List Candidate)
    (k : Option String × Option String × Option String) :
    ∀ pending : List Job, 1 ≤ countKey (visibleRows committed pending) k →
      countKey (committed ++ fetchLoop committed tJ cs pending) k
        = countKey (visibleRows committed pending) k := by
  induction cs with
  | nil => intro p _; simp [fetchLoop, visibleRows]
  | cons c0 cs ih =>
    intro p hpos
    by_cases hl : lookupExists (visibleRows committed p) c0 = true
    · rw [fetchLoop_cons_pos _ _ _ _ _ hl]
      exact ih p hpos
    · rw [fetchLoop_cons_neg _ _ _ _ _ (Bool.eq_false_iff.mpr hl)]
      have hne : candKey c0 ≠ k := by
        intro he
        obtain ⟨j, hj, hkey⟩ := (countKey_pos_iff _ _).mp hpos
        exact hl ((lookupExists_iff _ _).mpr ⟨j, hj, hkey.trans he.symm⟩)
      have hcount : countKey (visibleRows committed (p ++ [mkJob c0 tJ])) k
          = countKey (visibleRows committed p) k := by
        show countKey (committed ++ (p ++ [mkJob c0 tJ])) k = countKey (committed ++ p) k
        rw [← List.append_assoc, countKey_append]
        have hz : countKey [mkJob c0 tJ] k = 0 := by
          rw [countKey_eq_zero_iff]
          intro j hj
          rw [List.mem_singleton.mp hj, jobKey_mkJob]
          exact hne
        rw [hz]
        omega
      rw [ih (p ++ [mkJob c0 tJ]) (by rw [hcount]; exact hpos), hcount]

/-- A key absent from the visible rows but present among the remaining
candidates ends up stored exactly once. -/
theorem fetchLoop_countKey_reaches (committed : List Job) (tJ : Nat) (cs : List Candidate)
    (k : Option String × Option String × Option String) :
    ∀ pending : List Job, countKey (visibleRows committed pending) k = 0 →
      (∃ c ∈ cs, candKey c = k) →
      countKey (committed ++ fetchLoop committed tJ cs pending) k = 1 := by
  induction cs with
  | nil => intro p _ hex; obtain ⟨c, hc, _⟩ := hex; cases hc
  | cons c0 cs ih =>
    intro p hzero hex
    by_cases hk : candKey c0 = k
    · have hl : lookupExists (visibleRows committed p) c0 = false := by
        rw [Bool.eq_false_iff]
        intro htrue
        obtain ⟨j, hj, hkey⟩ := (lookupExists_iff _ _).mp htrue
        have : 0 < countKey (visibleRows committed p) k :=
          (countKey_pos_iff _ _).mpr ⟨j, hj, hkey.trans hk⟩
        omega
      rw [fetchLoop_cons_neg _ _ _ _ _ hl]
      have hone : countKey (visibleRows committed (p ++ [mkJob c0 tJ])) k = 1 := by
        show countKey (committed ++ (p ++ [mkJob c0 tJ])) k = 1
        rw [← List.append_assoc, countKey_append]
        have h1 : countKey [mkJob c0 tJ] k = 1 := by
          simp [countKey, jobKey_mkJob, hk]
        have h0 : countKey (committed ++ p) k = 0 := hzero
        rw [h0, h1]
      rw [fetchLoop_countKey_stable committed tJ cs k (p ++ [mkJob c0 tJ]) (by rw [hone]),
        hone]
    · have hex' : ∃ c ∈ cs, candKey c = k := by
        obtain ⟨c, hc, hck⟩ := hex
        rcases List.mem_cons.mp hc with rfl | hc
        · exact absurd hck hk
        · exact ⟨c, hc, hck⟩
      by_cases hl : lookupExists (visibleRows committed p) c0 = true
      · rw [fetchLoop_cons_pos _ _ _ _ _ hl]
        exact ih p hzero hex'
      · rw [fetchLoop_cons_neg _ _ _ _ _ (Bool.eq_false_iff.mpr hl)]
        refine ih (p ++ [mkJob c0 tJ]) ?_ hex'
        show countKey (committed ++ (p ++ [mkJob c0 tJ])) k = 0
        rw [← List.append_assoc, countKey_append]
        have h1 : countKey [mkJob c0 tJ] k = 0 := by
          rw [countKey_eq_zero_iff]
          intro j hj
          rw [List.mem_singleton.mp hj, jobKey_mkJob]
          exact hk
        have h0 : countKey (committed ++ p) k = 0 := hzero
        rw [h0, h1]

/-! Shape of one cycle, by case on credential, fetch outcome and commit outcome. -/

theorem cycle_ok_shape (k : Option String) (R : List Candidate) (commitOk : Bool)
    (tS tJ tR : Nat) (S : Store) (hk : keyConfigured k = true)
    (hc : (commitOk && commitAllowed (fetchLoop S.jobs tJ R [])) = true) :
    fetch_and_store_jobs k (.parsed R) commitOk tS tJ tR S
      = ⟨⟨S.jobs ++ fetchLoop S.jobs tJ R [], S.runs ++ [⟨tR, 1, 1⟩]⟩, 1, false⟩ := by
  simp [fetch_and_store_jobs, hk, hc, applyCommit]

theorem cycle_fail_shape (k : Option String) (R : List Candidate) (commitOk : Bool)
    (tS tJ tR : Nat) (S : Store) (hk : keyConfigured k = true)
    (hc : (commitOk && commitAllowed (fetchLoop S.jobs tJ R [])) = false) :
    fetch_and_store_jobs k (.parsed R) commitOk tS tJ tR S = ⟨S, 1, true⟩ := by
  simp [fetch_and_store_jobs, hk, hc]

theorem cycle_commit_of_no_error (k : Option String) (R : List Candidate)
    (tS tJ tR : Nat) (S : Store) (hk : keyConfigured k = true)
    (hok : (fetch_and_store_jobs k (.parsed R) true tS tJ tR S).raisedError = false) :
    (true && commitAllowed (fetchLoop S.jobs tJ R [])) = true := by
  by_contra hfalse
  rw [cycle_fail_shape k R true tS tJ tR S hk (Bool.eq_false_iff.mpr hfalse)] at hok
  simp at hok

theorem cycle_unconfigured_shape (k : Option String) (resp : FetchOutcome)
    (commitOk : Bool) (tS tJ tR : Nat) (S : Store) (hk : keyConfigured k = false) :
    fetch_and_store_jobs k resp commitOk tS tJ tR S = ⟨S, 0, false⟩ := by
  simp [fetch_and_store_jobs, hk]

theorem cycle_raised_shape (k : Option String) (commitOk : Bool) (tS tJ tR : Nat)
    (S : Store) (hk : keyConfigured k = true) :
    fetch_and_store_jobs k .raised commitOk tS tJ tR S = ⟨S, 1, true⟩ := by
  simp [fetch_and_store_jobs, hk]

/-- Claim C4: with the provider credential unset (or empty, equally falsy in
`if not SERPAPI_KEY:`), the cycle performs zero network calls and leaves the
Job Record Store and the Run Ledger exactly unchanged, writing no Job Listing
and no Ingestion Run record. -/
theorem no_credential_noop (k : Option String) (resp : FetchOutcome) (commitOk : Bool)
    (tS tJ tR : Nat) (S : Store) (hk : keyConfigured k = false) :
    fetch_and_store_jobs k resp commitOk tS tJ tR S = ⟨S, 0, false⟩ := by
  simp [fetch_and_store_jobs, hk]

theorem no_credential_noop_witness :
    keyConfigured none = false ∧
      fetch_and_store_jobs none (.parsed [⟨some "A", none, none, none, none, none⟩])
          true 0 1 2 ⟨[], []⟩ = ⟨⟨[], []⟩, 0, false⟩ :=
  ⟨rfl, no_credential_noop none (.parsed [⟨some "A", none, none, none, none, none⟩])
    true 0 1 2 ⟨[], []⟩ rfl⟩

/-- Claim C8: all writes of one cycle go through the single `db.commit()` at
the end; when that commit fails, no Job Listing and no Ingestion Run record
persists — the committed store is exactly the starting one — and the failure
propagates out of the cycle to the scheduler as an unhandled error. -/
theorem commit_failure_rolls_back (k : Option String) (R : List Candidate)
    (tS tJ tR : Nat) (S : Store) (hk : keyConfigured k = true) :
    fetch_and_store_jobs k (.parsed R) false tS tJ tR S = ⟨S, 1, true⟩ := by
  simp [fetch_and_store_jobs, hk]

theorem commit_failure_rolls_back_witness :
    keyConfigured (some "k") = true ∧
      fetch_and_store_jobs (some "k") (.parsed [⟨some "A", none, none, none, none, none⟩])
          false 0 1 2 ⟨[], []⟩ = ⟨⟨[], []⟩, 1, true⟩ :=
  ⟨by decide, commit_failure_rolls_back (some "k")
    [⟨some "A", none, none, none, none, none⟩] 0 1 2 ⟨[], []⟩ (by decide)⟩

/-- Claim C6, counterexample: the credential is configured and the external
fetch raises (timeout or malformed body), yet the Run Ledger stays empty — no
Ingestion Run record with success = false (nor any record at all) is written;
the exception simply propagates.  This refutes the claim that such an attempt
is recorded with success = false. -/
theorem fetch_failure_ledger_cex :
    (fetch_and_store_jobs (some "k") .raised true 0 1 2 ⟨[], []⟩).store.runs = [] ∧
      (fetch_and_store_jobs (some "k") .raised true 0 1 2 ⟨[], []⟩).raisedError = true := by
  decide

/-- Claim C6, amended: when the credential is configured but the external fetch
raises (timeout or malformed body), the cycle writes nothing at all — no Run
Ledger record of any kind — and the error propagates to the scheduler; the one
network call issued is the only trace of the attempt. -/
theorem fetch_failure_no_ledger (k : Option String) (commitOk : Bool) (tS tJ tR : Nat)
    (S : Store) (hk : keyConfigured k = true) :
    fetch_and_store_jobs k .raised commitOk tS tJ tR S = ⟨S, 1, true⟩ := by
  simp [fetch_and_store_jobs, hk]

theorem fetch_failure_no_ledger_witness :
    keyConfigured (some "k") = true ∧
      fetch_and_store_jobs (some "k") .raised true 3 4 5 ⟨[], []⟩ = ⟨⟨[], []⟩, 1, true⟩ :=
  ⟨by decide, fetch_failure_no_ledger (some "k") true 3 4 5 ⟨[], []⟩ (by decide)⟩

/-- Claim C5, counterexample: a successful cycle entered at instant 0 (the
cycle start, `_tStart`), whose closing `datetime.utcnow()` call — made only
after the fetch and the whole candidate loop — reads instant 5, stamps the run
record with run_time = 5, which differs from the cycle start time 0.  Nothing
in the source ties `run_time` to the start of the cycle. -/
theorem run_time_not_cycle_start_cex :
    (fetch_and_store_jobs (some "k") (.parsed []) true 0 1 5 ⟨[], []⟩).store.runs
        = [⟨5, 1, 1⟩] ∧ (5 : Nat) ≠ 0 := by
  decide

/-- Claim C5, amended: every successful cycle appends exactly one Ingestion Run
record, with api_calls_made = 1 — equal to the single network call actually
issued — and success = 1 (true); its run_time is the `utcnow()` reading taken
when the record is created, after all candidates are processed, not the cycle
start time. -/
theorem run_record_appended (k : Option String) (R : List Candidate) (tS tJ tR : Nat)
    (S : Store) (hk : keyConfigured k = true)
    (hok : (fetch_and_store_jobs k (.parsed R) true tS tJ tR S).raisedError = false) :
    (fetch_and_store_jobs k (.parsed R) true tS tJ tR S).store.runs
        = S.runs ++ [⟨tR, 1, 1⟩] ∧
      (fetch_and_store_jobs k (.parsed R) true tS tJ tR S).networkCalls = 1 := by
  rw [cycle_ok_shape k R true tS tJ tR S hk (cycle_commit_of_no_error k R tS tJ tR S hk hok)]
  exact ⟨rfl, rfl⟩

theorem run_record_appended_witness :
    keyConfigured (some "k") = true ∧
      (fetch_and_store_jobs (some "k") (.parsed []) true 0 1 2 ⟨[], []⟩).raisedError = false ∧
      ((fetch_and_store_jobs (some "k") (.parsed []) true 0 1 2 ⟨[], []⟩).store.runs
          = ([] : List ScheduledRun) ++ [⟨2, 1, 1⟩] ∧
        (fetch_and_store_jobs (some "k") (.parsed []) true 0 1 2 ⟨[], []⟩).networkCalls = 1) :=
  ⟨by decide, by decide,
    run_record_appended (some "k") [] 0 1 2 ⟨[], []⟩ (by decide) (by decide)⟩

/-- Claim C7, counterexample: a provider candidate with every field absent —
in particular the title — maps to a row violating the NOT NULL constraint on
`jobs.title` (`nullable=False` in `src/backend/models.py`), so the commit
raises and the cycle fails, contradicting the claim that no absent field can
make the cycle fail. -/
theorem absent_title_fails_cex :
    fetch_and_store_jobs (some "k") (.parsed [⟨none, none, none, none, none, none⟩])
        true 0 1 2 ⟨[], []⟩ = ⟨⟨[], []⟩, 1, true⟩ := by
  decide

/-- Claim C7, amended: the field mapping itself is total — every absent
candidate field maps to an absent stored value — and no absent field other
than the title can make the cycle fail: whenever every candidate carries a
title, the cycle succeeds (no propagated error), and every inserted row is the
direct mapping of some response candidate, absent fields staying absent.
A candidate without a title, by contrast, violates the `jobs.title` NOT NULL
constraint and makes the commit fail. -/
theorem optional_fields_safe (k : Option String) (R : List Candidate) (tS tJ tR : Nat)
    (S : Store) (hk : keyConfigured k = true)
    (ht : ∀ c ∈ R, c.title.isSome = true) :
    (fetch_and_store_jobs k (.parsed R) true tS tJ tR S).raisedError = false ∧
      ∃ new, (fetch_and_store_jobs k (.parsed R) true tS tJ tR S).store.jobs = S.jobs ++ new ∧
        ∀ j ∈ new, ∃ c ∈ R, j = mkJob c tJ := by
  have hca : (true && commitAllowed (fetchLoop S.jobs tJ R [])) = true := by
    show (fetchLoop S.jobs tJ R []).all rowInsertable = true
    rw [List.all_eq_true]
    intro j hj
    rcases fetchLoop_mem_shape S.jobs tJ R [] j hj with h0 | ⟨c, hc, he, _⟩
    · cases h0
    · rw [he]
      exact ht c hc
  rw [cycle_ok_shape k R true tS tJ tR S hk hca]
  exact ⟨rfl, fetchLoop S.jobs tJ R [], rfl, fun j hj => by
    rcases fetchLoop_mem_shape S.jobs tJ R [] j hj with h0 | ⟨c, hc, he, _⟩
    · cases h0
    · exact ⟨c, hc, he⟩⟩

theorem optional_fields_safe_witness :
    keyConfigured (some "k") = true ∧
      (∀ c ∈ [(⟨some "T", none, none, none, none, none⟩ : Candidate)], c.title.isSome = true) ∧
      ((fetch_and_store_jobs (some "k")
            (.parsed [⟨some "T", none, none, none, none, none⟩]) true 0 1 2
            ⟨[], []⟩).raisedError = false ∧
        ∃ new, (fetch_and_store_jobs (some "k")
            (.parsed [⟨some "T", none, none, none, none, none⟩]) true 0 1 2
            ⟨[], []⟩).store.jobs = Store.jobs ⟨[], []⟩ ++ new ∧
          ∀ j ∈ new, ∃ c ∈ [(⟨some "T", none, none, none, none, none⟩ : Candidate)],
            j = mkJob c 1) :=
  ⟨by decide, by decide, optional_fields_safe (some "k")
    [⟨some "T", none, none, none, none, none⟩] 0 1 2 ⟨[], []⟩ (by decide) (by decide)⟩

/-- Claim C3: the dedup-key uniqueness invariant is preserved by every
ingestion cycle, whatever the credential, fetch outcome and commit outcome: if
no two stored listings share a (title, company, location) triple beforehand,
the same holds afterwards. -/
theorem dedup_key_invariant_preserved (k : Option String) (resp : FetchOutcome)
    (commitOk : Bool) (tS tJ tR : Nat) (S : Store) (h : KeysDistinct S.jobs) :
    KeysDistinct (fetch_and_store_jobs k resp commitOk tS tJ tR S).store.jobs := by
  by_cases hk : keyConfigured k = true
  · cases resp with
    | raised =>
      rw [cycle_raised_shape k commitOk tS tJ tR S hk]
      exact h
    | parsed R =>
      by_cases hc : (commitOk && commitAllowed (fetchLoop S.jobs tJ R [])) = true
      · rw [cycle_ok_shape k R commitOk tS tJ tR S hk hc]
        show KeysDistinct (S.jobs ++ fetchLoop S.jobs tJ R [])
        apply fetchLoop_keys_distinct
        show KeysDistinct (S.jobs ++ [])
        rw [List.append_nil]
        exact h
      · rw [cycle_fail_shape k R commitOk tS tJ tR S hk (Bool.eq_false_iff.mpr hc)]
        exact h
  · rw [cycle_unconfigured_shape k resp commitOk tS tJ tR S (Bool.eq_false_iff.mpr hk)]
    exact h

theorem dedup_key_invariant_preserved_witness :
    KeysDistinct (Store.jobs ⟨[], []⟩) ∧
      KeysDistinct (fetch_and_store_jobs (some "k")
        (.parsed [⟨some "A", none, none, none, none, none⟩,
                  ⟨some "A", none, none, none, none, none⟩]) true 0 1 2
        ⟨[], []⟩).store.jobs :=
  ⟨List.Pairwise.nil, dedup_key_invariant_preserved (some "k")
    (.parsed [⟨some "A", none, none, none, none, none⟩,
              ⟨some "A", none, none, none, none, none⟩]) true 0 1 2 ⟨[], []⟩
    List.Pairwise.nil⟩

/-- Claim C2: on a successful cycle the prior store contents survive verbatim
as a prefix (existing records are never updated, even when descriptions or
urls differ); every response candidate whose dedup key is already stored
contributes no new row with that key; every candidate whose key is absent from
the store gets a newly inserted listing with that key, timestamped with the
current insertion instant; and every inserted row is the field mapping of some
response candidate. -/
theorem dedup_discard_or_insert (k : Option String) (R : List Candidate)
    (tS tJ tR : Nat) (S : Store) (hk : keyConfigured k = true)
    (hok : (fetch_and_store_jobs k (.parsed R) true tS tJ tR S).raisedError = false) :
    ∃ new, (fetch_and_store_jobs k (.parsed R) true tS tJ tR S).store.jobs = S.jobs ++ new
      ∧ (∀ c ∈ R, (∃ j ∈ S.jobs, jobKey j = candKey c) →
          ∀ n ∈ new, jobKey n ≠ candKey c)
      ∧ (∀ c ∈ R, (¬∃ j ∈ S.jobs, jobKey j = candKey c) →
          ∃ n ∈ new, jobKey n = candKey c ∧ n.created_at = tJ)
      ∧ (∀ n ∈ new, ∃ c ∈ R, n = mkJob c tJ) := by
  rw [cycle_ok_shape k R true tS tJ tR S hk (cycle_commit_of_no_error k R tS tJ tR S hk hok)]
  refine ⟨fetchLoop S.jobs tJ R [], rfl, ?_, ?_, ?_⟩
  · intro c _ hex n hn hkeyn
    rcases fetchLoop_mem_shape S.jobs tJ R [] n hn with h0 | ⟨c', _, he, hlf⟩
    · cases h0
    · obtain ⟨j, hj, hkj⟩ := hex
      have hkc : candKey c' = candKey c := by rw [← jobKey_mkJob c' tJ, ← he, hkeyn]
      have : lookupExists S.jobs c' = true :=
        (lookupExists_iff _ _).mpr ⟨j, hj, by rw [hkj, ← hkc]⟩
      rw [this] at hlf
      cases hlf
  · intro c hcR hnex
    have hfound := fetchLoop_all_found S.jobs tJ R [] c hcR
    obtain ⟨j, hj, hkey⟩ := (lookupExists_iff _ _).mp hfound
    rcases List.mem_append.mp hj with hjS | hjN
    · exact absurd ⟨j, hjS, hkey⟩ hnex
    · refine ⟨j, hjN, hkey, ?_⟩
      rcases fetchLoop_mem_shape S.jobs tJ R [] j hjN with h0 | ⟨c', _, he, _⟩
      · cases h0
      · rw [he]
        exact rfl
  · intro n hn
    rcases fetchLoop_mem_shape S.jobs tJ R [] n hn with h0 | ⟨c, hc, he, _⟩
    · cases h0
    · exact ⟨c, hc, he⟩

theorem dedup_discard_or_insert_witness :
    keyConfigured (some "k") = true ∧
      (fetch_and_store_jobs (some "k")
          (.parsed [⟨some "A", some "Co", some "L", some "d2", none, none⟩]) true 0 1 2
          ⟨[⟨some "A", some "Co", some "L", some "d1", none, none, 9⟩], []⟩).raisedError
        = false ∧
      ∃ new, (fetch_and_store_jobs (some "k")
          (.parsed [⟨some "A", some "Co", some "L", some "d2", none, none⟩]) true 0 1 2
          ⟨[⟨some "A", some "Co", some "L", some "d1", none, none, 9⟩], []⟩).store.jobs
          = Store.jobs ⟨[⟨some "A", some "Co", some "L", some "d1", none, none, 9⟩], []⟩ ++ new
        ∧ (∀ c ∈ [(⟨some "A", some "Co", some "L", some "d2", none, none⟩ : Candidate)],
            (∃ j ∈ Store.jobs ⟨[⟨some "A", some "Co", some "L", some "d1", none, none, 9⟩], []⟩,
              jobKey j = candKey c) → ∀ n ∈ new, jobKey n ≠ candKey c)
        ∧ (∀ c ∈ [(⟨some "A", some "Co", some "L", some "d2", none, none⟩ : Candidate)],
            (¬∃ j ∈ Store.jobs ⟨[⟨some "A", some "Co", some "L", some "d1", none, none, 9⟩], []⟩,
              jobKey j = candKey c) → ∃ n ∈ new, jobKey n = candKey c ∧ n.created_at = 1)
        ∧ (∀ n ∈ new, ∃ c ∈ [(⟨some "A", some "Co", some "L", some "d2", none, none⟩ : Candidate)],
            n = mkJob c 1) :=
  ⟨by decide, by decide,
    dedup_discard_or_insert (some "k") [⟨some "A", some "Co", some "L", some "d2", none, none⟩]
      0 1 2 ⟨[⟨some "A", some "Co", some "L", some "d1", none, none, 9⟩], []⟩
      (by decide) (by decide)⟩

/-- Claim C10: duplicates inside one provider response are collapsed as well:
if the store holds no listing with a given dedup key and the response carries
two or more candidates with that key, a successful cycle leaves the store with
exactly one listing carrying that key.  (The in-cycle lookup sees the
session's pending inserts, so the second twin is discarded.) -/
theorem in_response_duplicates_collapsed (k : Option String) (R : List Candidate)
    (tS tJ tR : Nat) (S : Store)
    (key3 : Option String × Option String × Option String)
    (h0 : ∀ j ∈ S.jobs, jobKey j ≠ key3)
    (h2 : 2 ≤ R.countP fun c => decide (candKey c = key3))
    (hk : keyConfigured k = true)
    (hok : (fetch_and_store_jobs k (.parsed R) true tS tJ tR S).raisedError = false) :
    countKey (fetch_and_store_jobs k (.parsed R) true tS tJ tR S).store.jobs key3 = 1 := by
  rw [cycle_ok_shape k R true tS tJ tR S hk (cycle_commit_of_no_error k R tS tJ tR S hk hok)]
  show countKey (S.jobs ++ fetchLoop S.jobs tJ R []) key3 = 1
  apply fetchLoop_countKey_reaches
  · show countKey (S.jobs ++ []) key3 = 0
    rw [List.append_nil, countKey_eq_zero_iff]
    exact h0
  · have hpos : 0 < R.countP fun c => decide (candKey c = key3) := by omega
    obtain ⟨c, hc, hd⟩ := List.countP_pos_iff.mp hpos
    exact ⟨c, hc, of_decide_eq_true hd⟩

theorem in_response_duplicates_collapsed_witness :
    (∀ j ∈ Store.jobs ⟨[], []⟩,
        jobKey j ≠ (some "A", some "Co", some "L")) ∧
      2 ≤ List.countP (fun c => decide (candKey c = (some "A", some "Co", some "L")))
          [(⟨some "A", some "Co", some "L", some "d1", none, none⟩ : Candidate),
           ⟨some "A", some "Co", some "L", some "d2", none, none⟩] ∧
      keyConfigured (some "k") = true ∧
      (fetch_and_store_jobs (some "k")
          (.parsed [⟨some "A", some "Co", some "L", some "d1", none, none⟩,
                    ⟨some "A", some "Co", some "L", some "d2", none, none⟩]) true 0 1 2
          ⟨[], []⟩).raisedError = false ∧
      countKey (fetch_and_store_jobs (some "k")
          (.parsed [⟨some "A", some "Co", some "L", some "d1", none, none⟩,
                    ⟨some "A", some "Co", some "L", some "d2", none, none⟩]) true 0 1 2
          ⟨[], []⟩).store.jobs (some "A", some "Co", some "L") = 1 :=
  ⟨by decide, by decide, by decide, by decide,
    in_response_duplicates_collapsed (some "k")
      [⟨some "A", some "Co", some "L", some "d1", none, none⟩,
       ⟨some "A", some "Co", some "L", some "d2", none, none⟩] 0 1 2 ⟨[], []⟩
      (some "A", some "Co", some "L") (by decide) (by decide) (by decide) (by decide)⟩

theorem all_insertable_map_mkJob (picked : List Candidate) (t : Nat) :
    (picked.map (mkJob · t)).all rowInsertable = picked.all fun c => c.title.isSome := by
  induction picked with
  | nil => rfl
  | cons c cs ih =>
    simp only [List.map_cons, List.all_cons, ih]
    rfl

/-- Claim C1: the ingestion cycle is idempotent on the Job Record Store — a
second cycle from the state left by a first cycle, with the identical provider
response, leaves the stored listings exactly as after the first run (zero new
listings on the second run), whatever the wall-clock instants of the two runs. -/
theorem ingestion_idempotent (k : Option String) (R : List Candidate) (S : Store)
    (tS1 tJ1 tR1 tS2 tJ2 tR2 : Nat) (hk : keyConfigured k = true) :
    (fetch_and_store_jobs k (.parsed R) true tS2 tJ2 tR2
        (fetch_and_store_jobs k (.parsed R) true tS1 tJ1 tR1 S).store).store.jobs
      = (fetch_and_store_jobs k (.parsed R) true tS1 tJ1 tR1 S).store.jobs := by
  obtain ⟨picked, hp⟩ := fetchLoop_factor S.jobs R []
  have hp1 : fetchLoop S.jobs tJ1 R [] = picked.map (mkJob · tJ1) := by
    have := hp tJ1
    simpa using this
  have hp2 : fetchLoop S.jobs tJ2 R [] = picked.map (mkJob · tJ2) := by
    have := hp tJ2
    simpa using this
  by_cases hall : (picked.all fun c => c.title.isSome) = true
  · have hc1 : (true && commitAllowed (fetchLoop S.jobs tJ1 R [])) = true := by
      show (fetchLoop S.jobs tJ1 R []).all rowInsertable = true
      rw [hp1, all_insertable_map_mkJob]
      exact hall
    rw [cycle_ok_shape k R true tS1 tJ1 tR1 S hk hc1]
    have hfound : ∀ c ∈ R,
        lookupExists (visibleRows (S.jobs ++ fetchLoop S.jobs tJ1 R []) []) c = true := by
      intro c hc
      show lookupExists ((S.jobs ++ fetchLoop S.jobs tJ1 R []) ++ []) c = true
      rw [List.append_nil]
      exact fetchLoop_all_found S.jobs tJ1 R [] c hc
    have hloop2 : fetchLoop (S.jobs ++ fetchLoop S.jobs tJ1 R []) tJ2 R [] = [] :=
      fetchLoop_no_insert _ _ _ [] hfound
    have hc2 : (true && commitAllowed
        (fetchLoop (Store.jobs ⟨S.jobs ++ fetchLoop S.jobs tJ1 R [],
          S.runs ++ [⟨tR1, 1, 1⟩]⟩) tJ2 R [])) = true := by
      show (fetchLoop (S.jobs ++ fetchLoop S.jobs tJ1 R []) tJ2 R []).all rowInsertable = true
      rw [hloop2]
      rfl
    rw [cycle_ok_shape k R true tS2 tJ2 tR2 _ hk hc2]
    show (S.jobs ++ fetchLoop S.jobs tJ1 R [])
        ++ fetchLoop (S.jobs ++ fetchLoop S.jobs tJ1 R []) tJ2 R []
      = S.jobs ++ fetchLoop S.jobs tJ1 R []
    rw [hloop2, List.append_nil]
  · have hc1 : (true && commitAllowed (fetchLoop S.jobs tJ1 R [])) = false := by
      show (fetchLoop S.jobs tJ1 R []).all rowInsertable = false
      rw [hp1, all_insertable_map_mkJob]
      exact Bool.eq_false_iff.mpr hall
    rw [cycle_fail_shape k R true tS1 tJ1 tR1 S hk hc1]
    have hc2 : (true && commitAllowed (fetchLoop S.jobs tJ2 R [])) = false := by
      show (fetchLoop S.jobs tJ2 R []).all rowInsertable = false
      rw [hp2, all_insertable_map_mkJob]
      exact Bool.eq_false_iff.mpr hall
    rw [cycle_fail_shape k R true tS2 tJ2 tR2 S hk hc2]

theorem ingestion_idempotent_witness :
    keyConfigured (some "k") = true ∧
      (fetch_and_store_jobs (some "k")
          (.parsed [⟨some "A", some "Co", some "L", none, none, none⟩]) true 3 4 5
          (fetch_and_store_jobs (some "k")
            (.parsed [⟨some "A", some "Co", some "L", none, none, none⟩]) true 0 1 2
            ⟨[], []⟩).store).store.jobs
        = (fetch_and_store_jobs (some "k")
            (.parsed [⟨some "A", some "Co", some "L", none, none, none⟩]) true 0 1 2
            ⟨[], []⟩).store.jobs :=
  ⟨by decide, ingestion_idempotent (some "k")
    [⟨some "A", some "Co", some "L", none, none, none⟩] ⟨[], []⟩ 0 1 2 3 4 5 (by decide)⟩

/-- Claim C9: the listing query filters by case-insensitive substring match of
the query text against the title: with stored listings titled
"Backend Engineer" and "Data Analyst" (in either storage order) and the
default paging, a query whose text lowercases to "engineer" returns only the
"Backend Engineer" listing, and reports a total match count of 1. -/
theorem filter_case_insensitive (j1 j2 : Job) (q : String)
    (h1 : j1.title = some "Backend Engineer") (h2 : j2.title = some "Data Analyst")
    (hq : lowerChars q = "engineer".data) :
    (list_jobs (some q) 1 20 [j1, j2]).1 = [j1]
      ∧ (list_jobs (some q) 1 20 [j2, j1]).1 = [j1]
      ∧ (list_jobs (some q) 1 20 [j1, j2]).2.1 = 1 := by
  have hf1 : titleIlike j1 ("engineer".data) = true := by
    simp only [titleIlike, h1]
    decide
  have hf2 : titleIlike j2 ("engineer".data) = false := by
    simp only [titleIlike, h2]
    decide
  have hnil : ¬(lowerChars q = ([] : List Char)) := by
    rw [hq]
    decide
  refine ⟨?_, ?_, ?_⟩
  · simp [list_jobs, hq, hnil, hf1, hf2, List.insertionSort, List.orderedInsert,
      List.take_of_length_le]
  · simp [list_jobs, hq, hnil, hf1, hf2, List.insertionSort, List.orderedInsert,
      List.take_of_length_le]
  · simp [list_jobs, hq, hnil, hf1, hf2]

theorem filter_case_insensitive_witness :
    Job.title ⟨some "Backend Engineer", none, none, none, none, none, 0⟩
        = some "Backend Engineer" ∧
      Job.title ⟨some "Data Analyst", none, none, none, none, none, 0⟩
        = some "Data Analyst" ∧
      lowerChars "EnGiNeEr" = "engineer".data ∧
      ((list_jobs (some "EnGiNeEr") 1 20
          [⟨some "Backend Engineer", none, none, none, none, none, 0⟩,
           ⟨some "Data Analyst", none, none, none, none, none, 0⟩]).1
          = [⟨some "Backend Engineer", none, none, none, none, none, 0⟩]
        ∧ (list_jobs (some "EnGiNeEr") 1 20
            [⟨some "Data Analyst", none, none, none, none, none, 0⟩,
             ⟨some "Backend Engineer", none, none, none, none, none, 0⟩]).1
          = [⟨some "Backend Engineer", none, none, none, none, none, 0⟩]
        ∧ (list_jobs (some "EnGiNeEr") 1 20
            [⟨some "Backend Engineer", none, none, none, none, none, 0⟩,
             ⟨some "Data Analyst", none, none, none, none, none, 0⟩]).2.1 = 1) :=
  ⟨rfl, rfl, by decide,
    filter_case_insensitive ⟨some "Backend Engineer", none, none, none, none, none, 0⟩
      ⟨some "Data Analyst", none, none, none, none, none, 0⟩ "EnGiNeEr" rfl rfl (by decide)⟩

end JobChommie
